import Mathlib

/-!
Verification of the content-generation and usage-accounting core of the
21SIXTY-Content repository.

The Python sources are shallowly embedded: Python strings are modelled as
`List Char`, pure string algorithms as structurally recursive Lean
functions, the completion client as a deterministic loop over an abstract
provider oracle, and the database repository operations as explicit state
transformers.  Function names follow the source
(`src/backend/services/content_generator.py`,
`src/backend/services/openai_service.py`,
`src/backend/services/prompts_service.py`,
`src/backend/database/repository.py`).
-/

/-- Convert a Lean string literal to the `List Char` representation used for
Python strings throughout this development. -/
def pyStr (s : String) : List Char := s.data

/-- The whitespace characters removed by Python's `str.strip()` (ASCII part;
the source only ever strips ASCII text). -/
def pyWS (c : Char) : Bool :=
  c = ' ' || c = '\t' || c = '\n' || c = '\r' || c = '\x0b' || c = '\x0c'

/-- Remove trailing characters satisfying `p` (Python `str.rstrip`). -/
def rstripP (p : Char → Bool) : List Char → List Char
  | [] => []
  | x :: xs =>
    let r := rstripP p xs
    if r = [] && p x then [] else x :: r

/-- Python `str.strip()` with no arguments: drop leading and trailing
whitespace. -/
def pyStrip (l : List Char) : List Char :=
  rstripP pyWS (l.dropWhile pyWS)

/-- Python `str.split(sep)` for a single-character separator and no maxsplit:
always returns a non-empty list and keeps empty fields. -/
def splitChar (c : Char) : List Char → List (List Char)
  | [] => [[]]
  | x :: xs =>
    match splitChar c xs with
    | [] => [[x]]
    | y :: ys => if x = c then [] :: y :: ys else (x :: y) :: ys

/-- Index of the first occurrence of `sep` as a contiguous sublist of `l`
(Python `str.find` on substrings). -/
def findSub (sep : List Char) : List Char → Option Nat
  | [] => if sep = [] then some 0 else none
  | x :: xs => if sep.isPrefixOf (x :: xs) then some 0 else (findSub sep xs).map (· + 1)

/-- Python `sep in l` substring containment. -/
def containsSub (sep l : List Char) : Bool :=
  (findSub sep l).isSome

/-- The part of `l` before the first occurrence of `sep`; the whole of `l`
when `sep` does not occur (Python `l.split(sep)[0]`). -/
def takeBeforeSub (sep l : List Char) : List Char :=
  match findSub sep l with
  | some i => l.take i
  | none => l

/-- Python `l.split(c, 1)[-1]`: everything after the first occurrence of the
character `c`, or `l` itself when `c` is absent. -/
def afterFirstChar (c : Char) : List Char → List Char
  | [] => []
  | x :: xs => if x = c then xs else afterFirstChar c xs

/-- Total version matching Python `l.split(c, 1)[-1]` exactly. -/
def pySplit1Last (c : Char) (l : List Char) : List Char :=
  if c ∈ l then afterFirstChar c l else l

/-- Python `str.rfind(c)`: index of the last occurrence, `-1` when absent. -/
def pyRFind (c : Char) (l : List Char) : Int :=
  match l.reverse.findIdx? (· = c) with
  | some i => (l.length : Int) - 1 - (i : Int)
  | none => -1

/-- Helper for `pyIntParse`: consume decimal digits, allowing single
underscores between digits as Python's `int` does.  The accumulator holds the
value of the digits already read. -/
def pyDigitsAux (acc : Nat) : List Char → Option Nat
  | [] => some acc
  | '_' :: d :: rest =>
    if d.isDigit then pyDigitsAux (acc * 10 + (d.toNat - 48)) rest else none
  | ['_'] => none
  | d :: rest =>
    if d.isDigit then pyDigitsAux (acc * 10 + (d.toNat - 48)) rest else none

/-- Digit run starting a Python integer literal (at least one digit). -/
def pyDigitsFirst : List Char → Option Nat
  | [] => none
  | d :: rest => if d.isDigit then pyDigitsAux (d.toNat - 48) rest else none

/-- Python `int(s)` for base 10: optional surrounding whitespace, optional
sign, then ASCII digits with optional single underscores between digits.
Returns `none` where Python raises `ValueError`. -/
def pyIntParse (l : List Char) : Option Int :=
  match pyStrip l with
  | '+' :: rest => (pyDigitsFirst rest).map Int.ofNat
  | '-' :: rest => (pyDigitsFirst rest).map (fun n => -(n : Int))
  | rest => (pyDigitsFirst rest).map Int.ofNat

/-- Stable insert for `sortByKey`; places `a` before the first element whose
key is not smaller, which reproduces the output of Python's stable
`list.sort(key=...)`. -/
def insertByKey {α : Type} (key : α → Int) (a : α) : List α → List α
  | [] => [a]
  | b :: l => if key a ≤ key b then a :: b :: l else b :: insertByKey key a l

/-- Stable sort by an integer key; extensionally equal to Python's
`list.sort(key=...)` because both are stable sorts by the same key. -/
def sortByKey {α : Type} (key : α → Int) : List α → List α
  | [] => []
  | a :: l => insertByKey key a (sortByKey key l)

/-! ## `content_generator.py`: response parsing -/

/-- `ContentGenerator._parse_timestamp`: parse `HH:MM:SS`, `MM:SS` or bare
seconds to total seconds; any parse failure yields `0` (the bare `except`
in the source). -/
def parse_timestamp (l : List Char) : Int :=
  match splitChar ':' l with
  | [a, b, c] =>
    match pyIntParse a, pyIntParse b, pyIntParse c with
    | some x, some y, some z => x * 3600 + y * 60 + z
    | _, _, _ => 0
  | [a, b] =>
    match pyIntParse a, pyIntParse b with
    | some x, some y => x * 60 + y
    | _, _ => 0
  | a :: _ => (pyIntParse a).getD 0
  | [] => 0

/-- `true` exactly when `parse_timestamp` reaches one of its `int(...)`
conversions without the `except` branch firing. -/
def timestampParses (l : List Char) : Bool :=
  match splitChar ':' l with
  | [a, b, c] => (pyIntParse a).isSome && (pyIntParse b).isSome && (pyIntParse c).isSome
  | [a, b] => (pyIntParse a).isSome && (pyIntParse b).isSome
  | a :: _ => (pyIntParse a).isSome
  | [] => false

/-- Sort key used on chapter lines: parse the text before the first
`" - "` separator (`x.split(' - ')[0]`). -/
def tsKey (l : List Char) : Int :=
  parse_timestamp (takeBeforeSub (pyStr " - ") l)

/-- The lines of the raw response kept by
`ContentGenerator._parse_timestamps_response`: stripped, non-empty, and
containing a `" - "` separator. -/
def keptTimestampLines (response : List Char) : List (List Char) :=
  (splitChar '\n' response).filterMap fun line =>
    let s := pyStrip line
    if s ≠ [] && containsSub (pyStr " - ") s then some s else none

/-- `ContentGenerator._parse_timestamps_response`: keep qualifying lines,
sort them by parsed leading timestamp, and substitute the default entry when
nothing qualifies. -/
def parse_timestamps_response (response : List Char) : List (List Char) :=
  let sorted := sortByKey tsKey (keptTimestampLines response)
  if sorted = [] then [pyStr "00:00:00 - Introduction"] else sorted

/-- One line of `ContentGenerator._parse_list_response`'s loop body: strip,
remove `N.`/`N)` numbering and bullet markers; `none` when the line ends up
empty and is not appended. -/
def parseListLine (line : List Char) : Option (List Char) :=
  let l1 := pyStrip line
  if l1 = [] then none
  else
    let l2 :=
      if (l1.head?.map Char.isDigit).getD false &&
         ('.' ∈ l1.take 3 || ')' ∈ l1.take 3) then
        if '.' ∈ l1.take 3 then pyStrip (pySplit1Last '.' l1)
        else pyStrip (pySplit1Last ')' l1)
      else l1
    let l3 :=
      if l2.head? = some '-' || l2.head? = some '•' then pyStrip l2.tail else l2
    if l3 = [] then none else some l3

/-- `ContentGenerator._parse_list_response`: extract list items, pad with the
default item up to the target count (only when the default is non-empty, as
the `and default_item` guard does), then truncate to the target count. -/
def parse_list_response (response : List Char) (target_count : Nat)
    (default_item : List Char) : List (List Char) :=
  let items := (splitChar '\n' response).filterMap parseListLine
  let padded :=
    if default_item = [] then items
    else items ++ List.replicate (target_count - items.length) default_item
  padded.take target_count

/-- `ContentGenerator._generate_clickbait_titles_with_db_impl`: parse with
target count 20 and default `f"Insights from {guest_name} at {guest_company}"`,
then clamp every title to 100 characters (`[t[:100] for t in ...]`). -/
def clickbait_titles_db (response guest_name guest_company : List Char) :
    List (List Char) :=
  (parse_list_response response 20
      (pyStr "Insights from " ++ guest_name ++ pyStr " at " ++ guest_company)).map
    (List.take 100)

/-- The `keyword_list` of `generate_hashtags_from_keywords`:
`[kw.strip().replace(' ', '') for kw in keywords.split(',') if kw.strip()]`
followed by `[kw.rstrip('...') for kw in keyword_list]`. -/
def hashtagKeywordList (keywords : List Char) : List (List Char) :=
  ((splitChar ',' keywords).filterMap fun kw =>
    if pyStrip kw = [] then none
    else some ((pyStrip kw).filter (· ≠ ' '))).map (rstripP (· = '.'))

/-- `', '.join([f'#{kw}' for kw in keyword_list])`. -/
def hashtagJoin (keywords : List Char) : List Char :=
  List.intercalate (pyStr ", ") ((hashtagKeywordList keywords).map (fun kw => '#' :: kw))

/-- The 500-character / last-comma truncation rule applied to keywords and
hashtags strings alike. -/
def truncate500 (s : List Char) : List Char :=
  if 500 < s.length then
    let truncated := s.take 500
    let last_comma := pyRFind ',' truncated
    if 400 < last_comma then truncated.take last_comma.toNat else truncated
  else s

/-- `ContentGenerator.generate_hashtags_from_keywords`: split the keywords on
commas, drop blank entries, remove spaces inside each keyword, strip trailing
dots (`rstrip('...')`), prefix `#`, join with `", "`, and apply the
500-character / last-comma truncation rule. -/
def generate_hashtags_from_keywords (keywords : List Char) : List Char :=
  if keywords = [] then []
  else truncate500 (hashtagJoin keywords)

/-- The comma-separated tokens of a rendered hashtags string: split on `','`,
strip whitespace, drop empties. -/
def hashtagTokens (s : List Char) : List (List Char) :=
  ((splitChar ',' s).map pyStrip).filter (· ≠ [])

/-! ## `openai_service.py`: completion client -/

/-- `MAX_PROMPT_CHARS` in `openai_service.py`. -/
def MAX_PROMPT_CHARS : Nat := 50000

/-- `TRUNCATION_NOTE` in `openai_service.py`. -/
def TRUNCATION_NOTE : List Char :=
  pyStr "\n\n[Transcript truncated due to length. Content generated from the first part of the episode.]"

/-- `_truncate_prompt`: cut to the character budget and append the note. -/
def truncate_prompt (p : List Char) : List Char :=
  if p.length ≤ MAX_PROMPT_CHARS then p
  else p.take (MAX_PROMPT_CHARS - TRUNCATION_NOTE.length) ++ TRUNCATION_NOTE

/-- `_is_context_length_error`. -/
def is_context_length_error (msg : List Char) : Bool :=
  containsSub (pyStr "context_length_exceeded") msg ||
  containsSub (pyStr "maximum context length") msg

/-- Token usage returned by one successful provider call
(`response.usage`). -/
structure ApiResponse where
  content : List Char
  prompt_tokens : Nat
  completion_tokens : Nat
  total_tokens : Nat
  deriving DecidableEq, Repr

/-- Result of one provider call: success or a raised exception whose string
representation is `msg`. -/
inductive CallOutcome where
  | ok (r : ApiResponse)
  | err (msg : List Char)
  deriving DecidableEq, Repr

/-- The external provider, abstracted as a deterministic function of the
model id and the user content sent. -/
def Oracle : Type := String → List Char → CallOutcome

/-- The dictionary returned by `generate_text_with_tokens` on success
(content stripped, `model` is the candidate that answered). -/
structure GenSuccess where
  content : List Char
  prompt_tokens : Nat
  completion_tokens : Nat
  total_tokens : Nat
  model : String
  deriving DecidableEq, Repr

/-- Build the success dictionary from a provider response, stripping the
content as `response.choices[0].message.content.strip()` does. -/
def mkSuccess (m : String) (r : ApiResponse) : GenSuccess :=
  ⟨pyStrip r.content, r.prompt_tokens, r.completion_tokens, r.total_tokens, m⟩

/-- The two-attempt inner loop of `generate_text_with_tokens` for one
candidate model: retry once with the truncated prompt only on a
context-length error when the prompt exceeds `MAX_PROMPT_CHARS`; any other
failure abandons the candidate.  Also returns the list of
`(model, user_content)` provider calls actually made. -/
def attemptCandidate (o : Oracle) (m : String) (p : List Char) :
    Except (List Char) GenSuccess × List (String × List Char) :=
  match o m p with
  | .ok r => (.ok (mkSuccess m r), [(m, p)])
  | .err msg =>
    if is_context_length_error msg && decide (MAX_PROMPT_CHARS < p.length) then
      match o m (truncate_prompt p) with
      | .ok r => (.ok (mkSuccess m r), [(m, p), (m, truncate_prompt p)])
      | .err msg2 => (.error msg2, [(m, p), (m, truncate_prompt p)])
    else (.error msg, [(m, p)])

/-- `OpenAIService.fallback_models`. -/
def fallback_models : List String :=
  ["gpt-5-nano", "gpt-5", "gpt-5.1", "gpt-5.2", "gpt-4o-mini", "gpt-4o", "gpt-3.5-turbo"]

/-- `models_to_try = [self.model] + [m for m in self.fallback_models if m != self.model]`. -/
def models_to_try (primary : String) : List String :=
  primary :: fallback_models.filter (· ≠ primary)

/-- Outer candidate loop of `generate_text_with_tokens`; on exhaustion the
final exception carries the last underlying error. -/
def genLoop (o : Oracle) (p : List Char) :
    List String → Option (List Char) →
    Except (Option (List Char)) GenSuccess × List (String × List Char)
  | [], last => (.error last, [])
  | m :: ms, _ =>
    match attemptCandidate o m p with
    | (.ok s, tr) => (.ok s, tr)
    | (.error msg, tr) =>
      let rest := genLoop o p ms (some msg)
      (rest.1, tr ++ rest.2)

/-- `OpenAIService.generate_text_with_tokens`, as a function of the provider
oracle, the configured primary model, and the prompt.  Returns the outcome
and the trace of provider calls made. -/
def generate_text_with_tokens (o : Oracle) (primary : String) (p : List Char) :
    Except (Option (List Char)) GenSuccess × List (String × List Char) :=
  genLoop o p (models_to_try primary) none

/-- Concrete provider for checking: succeeds iff the content fits the
character budget, otherwise raises a context-length error. -/
def oracleW : Oracle := fun _ content =>
  if content.length ≤ MAX_PROMPT_CHARS then .ok ⟨pyStr "ok", 3, 2, 5⟩
  else .err (pyStr "context_length_exceeded")

/-- A concrete over-budget prompt (50001 characters). -/
def promptW : List Char := List.replicate 50001 'a'

/-- Concrete provider for checking: the primary model always raises a
context-length error, every other model succeeds. -/
def oracleC : Oracle := fun m _ =>
  if m = "gpt-5-mini" then .err (pyStr "context_length_exceeded")
  else .ok ⟨pyStr "fallback reply", 3, 2, 5⟩

/-! ## `str.format` and the two prompt-rendering paths -/

/-- Errors raised by Python's `str.format`: `KeyError` for a placeholder name
absent from the keyword arguments, `ValueError` for malformed brace syntax.
(Only named placeholders are modelled; the repository's templates use no
positional or format-spec syntax.) -/
inductive FormatErr where
  | keyErr (name : List Char)
  | valueErr
  deriving DecidableEq, Repr

/-- Association lookup for format fields. -/
def lookupField (fields : List (List Char × List Char)) (name : List Char) :
    Option (List Char) :=
  match fields.find? (fun f => f.1 = name) with
  | some f => some f.2
  | none => none

/-- Worker for `pyFormat`.  The first argument is `none` in literal mode and
`some acc` while reading a placeholder name (accumulated in reverse). -/
def pyFormatGo (fields : List (List Char × List Char)) :
    Option (List Char) → List Char → Except FormatErr (List Char)
  | none, [] => .ok []
  | none, '{' :: '{' :: rest => (pyFormatGo fields none rest).map ('{' :: ·)
  | none, '}' :: '}' :: rest => (pyFormatGo fields none rest).map ('}' :: ·)
  | none, '{' :: rest => pyFormatGo fields (some []) rest
  | none, '}' :: _ => .error .valueErr
  | none, c :: rest => (pyFormatGo fields none rest).map (c :: ·)
  | some _, [] => .error .valueErr
  | some acc, '}' :: rest =>
    match lookupField fields acc.reverse with
    | some v => (pyFormatGo fields none rest).map (v ++ ·)
    | none => .error (.keyErr acc.reverse)
  | some acc, c :: rest => pyFormatGo fields (some (c :: acc)) rest

/-- Python `template.format(**fields)` restricted to named placeholders. -/
def pyFormat (template : List Char) (fields : List (List Char × List Char)) :
    Except FormatErr (List Char) :=
  pyFormatGo fields none template

/-- The rendering step of `ContentGenerator._generate_content_with_db`
(lines 200-205): `template.format(**fmt_kwargs)`, but a `KeyError` is caught
and the **raw, unformatted template** is used as the prompt; other format
errors propagate. -/
def render_db_prompt (template : List Char)
    (fields : List (List Char × List Char)) : Except Unit (List Char) :=
  match pyFormat template fields with
  | .ok s => .ok s
  | .error (.keyErr _) => .ok template
  | .error .valueErr => .error ()

/-- The final rendering step of `PromptsService.format_prompt` (lines
119-123): `prompt_template.format(**kwargs)`, with `KeyError` re-raised as
`ValueError("Missing required variable in prompt")` — the operation fails,
it never falls back to unrendered text. -/
def format_prompt_render (template : List Char)
    (fields : List (List Char × List Char)) : Except FormatErr (List Char) :=
  pyFormat template fields

/-! ## `database/repository.py`: usage ledger and template store -/

/-- One `TokenUsage` row (`database/models.py`).  `generated_at` is kept at
calendar-day granularity (`date`), which is what the daily summary keys on;
`cost_usd` is modelled as a rational. -/
structure TokenUsageRec where
  session_id : String
  prompt_usage_id : Nat
  template_id : Nat
  prompt_tokens : Int
  completion_tokens : Int
  total_tokens : Int
  model : String
  cost_usd : Rat
  date : String
  deriving DecidableEq, Repr

/-- One `UsageSummary` row, keyed by `date` (YYYY-MM-DD string). -/
structure SummaryRec where
  date : String
  total_tokens : Int
  total_cost_usd : Rat
  request_count : Nat
  deriving DecidableEq, Repr

/-- One `PromptTemplate` row. -/
structure TemplateRow where
  id : Nat
  name : String
  template : List Char
  version : Nat
  is_active : Bool
  deriving DecidableEq, Repr

/-- The database state the claims range over: `TokenUsage` rows in insertion
order and the `UsageSummary` rows. -/
structure DBState where
  tokenUsages : List TokenUsageRec
  summaries : List SummaryRec
  deriving DecidableEq, Repr

/-- The empty database. -/
def emptyDB : DBState := ⟨[], []⟩

/-- `Repository._update_usage_summary`: increment the unique summary row for
`date` (adding tokens and cost, bumping `request_count` by one), creating it
when absent. -/
def update_usage_summary (summaries : List SummaryRec) (date : String)
    (tokens : Int) (cost : Rat) : List SummaryRec :=
  match summaries with
  | [] => [⟨date, tokens, cost, 1⟩]
  | s :: rest =>
    if s.date = date then
      { s with total_tokens := s.total_tokens + tokens,
               total_cost_usd := s.total_cost_usd + cost,
               request_count := s.request_count + 1 } :: rest
    else s :: update_usage_summary rest date tokens cost

/-- The successful path of `Repository.save_token_usage`: append the per-call
`TokenUsage` row, then upsert the daily summary for the record's day. -/
def save_token_usage (st : DBState) (rec : TokenUsageRec) : DBState :=
  { st with
    tokenUsages := st.tokenUsages ++ [rec],
    summaries := update_usage_summary st.summaries rec.date rec.total_tokens rec.cost_usd }

/-- `Repository.save_token_usage` with its failure behaviour made explicit:
the `TokenUsage` insert is flushed, then `_update_usage_summary` runs with no
exception handling around it, so a summary-upsert failure propagates out of
`save_token_usage` before any commit. -/
def save_token_usage_txn (st : DBState) (rec : TokenUsageRec)
    (summary_upsert_fails : Bool) : Except Unit DBState :=
  if summary_upsert_fails then .error () else .ok (save_token_usage st rec)

/-- Durable state after the enclosing request: `repository.commit()` runs
only on the success path (`main.py` line 531); on an exception the session
is closed without commit and every flushed-but-uncommitted row is discarded,
leaving the previously committed state. -/
def durableAfter (committed : DBState) (res : Except Unit DBState) : DBState :=
  match res with
  | .ok st => st
  | .error _ => committed

/-- Run a sequence of successful `save_token_usage` calls. -/
def runSaves (recs : List TokenUsageRec) (st : DBState) : DBState :=
  recs.foldl save_token_usage st

/-- Sum of `total_tokens` over the summary rows whose date lies in the
window `W`. -/
def summaryTokensIn (W : String → Bool) (st : DBState) : Int :=
  ((st.summaries.filter (fun s => W s.date)).map SummaryRec.total_tokens).sum

/-- Sum of `total_tokens` over the per-call `TokenUsage` rows whose day lies
in the window `W`. -/
def usageTokensIn (W : String → Bool) (st : DBState) : Int :=
  ((st.tokenUsages.filter (fun u => W u.date)).map TokenUsageRec.total_tokens).sum

/-- Sum of `request_count` over all summary rows. -/
def summaryRequestCount (st : DBState) : Nat :=
  (st.summaries.map SummaryRec.request_count).sum

/-- Template store state: `PromptTemplate` rows in insertion order. -/
abbrev TemplateStore : Type := List TemplateRow

/-- `select(func.max(PromptTemplate.version)).where(name == name)` followed
by `or 0`: the maximum version over **all** rows with this name, active or
not, and `0` when there is none. -/
def maxVersion (store : TemplateStore) (name : String) : Nat :=
  ((store.filter (fun r => r.name = name)).map TemplateRow.version).foldl max 0

/-- `Repository.create_prompt_template`: insert a new active row with
version `maxVersion + 1`; existing rows are untouched.  Returns the new row
and the new store (ids are assigned by insertion position). -/
def create_prompt_template (store : TemplateStore) (name : String)
    (template : List Char) : TemplateRow × TemplateStore :=
  let row : TemplateRow := ⟨store.length, name, template, maxVersion store name + 1, true⟩
  (row, store ++ [row])

/-- `Repository.update_prompt_template`: deactivate the single active row for
`name` when it exists (`scalar_one_or_none` raises when several are active),
then create the next version. -/
def update_prompt_template (store : TemplateStore) (name : String)
    (template : List Char) : Except Unit (TemplateRow × TemplateStore) :=
  match store.filter (fun r => r.name = name && r.is_active) with
  | [] => .ok (create_prompt_template store name template)
  | [r] =>
    let deactivated := store.map fun q =>
      if q.id = r.id then { q with is_active := false } else q
    .ok (create_prompt_template deactivated name template)
  | _ => .error ()

/-- `Repository.get_prompt_template`: the active row for `name` with the
highest version (order by version descending, limit 1). -/
def get_prompt_template (store : TemplateStore) (name : String) :
    Option TemplateRow :=
  (store.filter (fun r => r.name = name && r.is_active)).foldl
    (fun acc r =>
      match acc with
      | none => some r
      | some a => if a.version < r.version then some r else acc) none

/-! ## Helper lemmas -/

theorem mem_insertByKey {α : Type} (key : α → Int) (a x : α) (l : List α) :
    x ∈ insertByKey key a l ↔ x = a ∨ x ∈ l := by
  induction l with
  | nil => simp [insertByKey]
  | cons b t ih =>
    by_cases h : key a ≤ key b
    · simp [insertByKey, h]
    · simp [insertByKey, h, ih]
      tauto

theorem pairwise_insertByKey {α : Type} (key : α → Int) (a : α) (l : List α)
    (h : l.Pairwise (fun x y => key x ≤ key y)) :
    (insertByKey key a l).Pairwise (fun x y => key x ≤ key y) := by
  induction l with
  | nil => simp [insertByKey]
  | cons b t ih =>
    rw [List.pairwise_cons] at h
    by_cases hab : key a ≤ key b
    · simp only [insertByKey, if_pos hab]
      refine List.pairwise_cons.mpr ⟨?_, List.pairwise_cons.mpr h⟩
      intro x hx
      rcases List.mem_cons.mp hx with rfl | hx
      · exact hab
      · exact hab.trans (h.1 x hx)
    · simp only [insertByKey, if_neg hab]
      refine List.pairwise_cons.mpr ⟨?_, ih h.2⟩
      intro x hx
      rcases (mem_insertByKey key a x t).mp hx with rfl | hx
      · omega
      · exact h.1 x hx

theorem pairwise_sortByKey {α : Type} (key : α → Int) (l : List α) :
    (sortByKey key l).Pairwise (fun x y => key x ≤ key y) := by
  induction l with
  | nil => simp [sortByKey]
  | cons a t ih => exact pairwise_insertByKey key a _ ih

theorem mem_sortByKey {α : Type} (key : α → Int) (x : α) (l : List α) :
    x ∈ sortByKey key l ↔ x ∈ l := by
  induction l with
  | nil => simp [sortByKey]
  | cons a t ih => simp [sortByKey, mem_insertByKey, ih]

theorem sortByKey_eq_nil_iff {α : Type} (key : α → Int) (l : List α) :
    sortByKey key l = [] ↔ l = [] := by
  cases l with
  | nil => simp [sortByKey]
  | cons a t =>
    simp only [sortByKey]
    constructor
    · intro h
      have : a ∈ insertByKey key a (sortByKey key t) :=
        (mem_insertByKey key a a _).mpr (Or.inl rfl)
      rw [h] at this
      exact absurd this (List.not_mem_nil a)
    · intro h; exact absurd h (List.cons_ne_nil a t)

theorem splitChar_ne_nil (c : Char) (l : List Char) : splitChar c l ≠ [] := by
  cases l with
  | nil => simp [splitChar]
  | cons x xs =>
    simp only [splitChar]
    cases h : splitChar c xs with
    | nil => simp
    | cons y ys =>
      by_cases hx : x = c <;> simp [hx]

theorem splitChar_cons_ne (c x : Char) (xs : List Char) (hx : x ≠ c) :
    splitChar c (x :: xs) =
      (x :: (splitChar c xs).headI) :: (splitChar c xs).tail := by
  simp only [splitChar]
  cases h : splitChar c xs with
  | nil => exact absurd h (splitChar_ne_nil c xs)
  | cons y ys => simp [hx]

theorem splitChar_cons_sep (c : Char) (xs : List Char) :
    splitChar c (c :: xs) = [] :: splitChar c xs := by
  simp only [splitChar]
  cases h : splitChar c xs with
  | nil => exact absurd h (splitChar_ne_nil c xs)
  | cons y ys => simp

/-- Splitting a string with no separator occurrence yields the whole string. -/
theorem splitChar_of_not_mem (c : Char) (l : List Char) (h : c ∉ l) :
    splitChar c l = [l] := by
  induction l with
  | nil => simp [splitChar]
  | cons x xs ih =>
    have hx : x ≠ c := fun hc => h (hc ▸ List.mem_cons_self x xs)
    have hxs : c ∉ xs := fun hc => h (List.mem_cons_of_mem x hc)
    rw [splitChar_cons_ne c x xs hx, ih hxs]
    simp

/-- Splitting an append whose left part is separator-free prepends the left
part onto the first field of the right split. -/
theorem splitChar_append_of_not_mem (c : Char) (xs ys : List Char)
    (h : c ∉ xs) :
    splitChar c (xs ++ ys) =
      (xs ++ (splitChar c ys).headI) :: (splitChar c ys).tail := by
  induction xs with
  | nil =>
    simp only [List.nil_append]
    cases hy : splitChar c ys with
    | nil => exact absurd hy (splitChar_ne_nil c ys)
    | cons z zs => simp [hy]
  | cons x xs ih =>
    have hx : x ≠ c := fun hc => h (hc ▸ List.mem_cons_self x xs)
    have hxs : c ∉ xs := fun hc => h (List.mem_cons_of_mem x hc)
    rw [List.cons_append, splitChar_cons_ne c x (xs ++ ys) hx, ih hxs]
    simp

/-- Splitting a prefix of `l` agrees with splitting `l` on an initial run of
complete fields, followed by one field that is a prefix of the corresponding
field of `l`. -/
theorem splitChar_take (c : Char) (l : List Char) (n : Nat) :
    ∃ pre x y rest, splitChar c l = pre ++ (x ++ y) :: rest ∧
      splitChar c (l.take n) = pre ++ [x] := by
  induction l generalizing n with
  | nil => exact ⟨[], [], [], [], by simp [splitChar], by simp [splitChar]⟩
  | cons a as ih =>
    cases n with
    | zero =>
      refine ⟨[], [], (splitChar c (a :: as)).headI,
        (splitChar c (a :: as)).tail, ?_, by simp [splitChar]⟩
      cases hh : splitChar c (a :: as) with
      | nil => exact absurd hh (splitChar_ne_nil c _)
      | cons z zs => simp [hh]
    | succ m =>
      by_cases hc : a = c
      · subst hc
        obtain ⟨pre, x, y, rest, h1, h2⟩ := ih m
        refine ⟨[] :: pre, x, y, rest, ?_, ?_⟩
        · rw [splitChar_cons_sep, h1]; rfl
        · rw [List.take_succ_cons, splitChar_cons_sep, h2]; rfl
      · obtain ⟨pre, x, y, rest, h1, h2⟩ := ih m
        cases pre with
        | nil =>
          simp only [List.nil_append] at h1 h2
          refine ⟨[], a :: x, y, rest, ?_, ?_⟩
          · rw [splitChar_cons_ne c a as hc, h1]; simp
          · rw [List.take_succ_cons, splitChar_cons_ne c a _ hc, h2]; simp
        | cons p0 ps =>
          simp only [List.cons_append] at h1 h2
          refine ⟨(a :: p0) :: ps, x, y, rest, ?_, ?_⟩
          · rw [splitChar_cons_ne c a as hc, h1]; simp
          · rw [List.take_succ_cons, splitChar_cons_ne c a _ hc, h2]; simp

theorem mem_of_mem_rstripP (p : Char → Bool) (l : List Char) (x : Char)
    (hx : x ∈ rstripP p l) : x ∈ l := by
  induction l with
  | nil => simp [rstripP] at hx
  | cons a t ih =>
    simp only [rstripP] at hx
    by_cases h : rstripP p t = [] && p a
    · rw [if_pos h] at hx; exact absurd hx (List.not_mem_nil x)
    · rw [if_neg h] at hx
      rcases List.mem_cons.mp hx with rfl | hx
      · exact List.mem_cons_self x t
      · exact List.mem_cons_of_mem a (ih hx)

theorem mem_of_mem_pyStrip (l : List Char) (x : Char) (hx : x ∈ pyStrip l) :
    x ∈ l := by
  have := mem_of_mem_rstripP pyWS (l.dropWhile pyWS) x hx
  exact (List.dropWhile_sublist pyWS).mem this

theorem rstripP_cons_of_neg (p : Char → Bool) (a : Char) (l : List Char)
    (ha : p a = false) : rstripP p (a :: l) = a :: rstripP p l := by
  simp [rstripP, ha]

theorem dropWhile_eq_cons_head (p : Char → Bool) (l : List Char)
    (h t : _) (hh : l.dropWhile p = h :: t) : p h = false := by
  induction l with
  | nil => simp [List.dropWhile] at hh
  | cons a as ih =>
    rw [List.dropWhile_cons] at hh
    by_cases ha : p a
    · rw [if_pos ha] at hh; exact ih hh
    · rw [if_neg ha] at hh
      cases hh
      simpa using ha

/-- `pyStrip` of a string starting with `'#'` keeps the leading `'#'`. -/
theorem pyStrip_hash_cons (kw : List Char) :
    pyStrip ('#' :: kw) = '#' :: rstripP pyWS kw := by
  have h1 : pyWS '#' = false := by decide
  unfold pyStrip
  rw [List.dropWhile_cons, if_neg (by simp [h1]), rstripP_cons_of_neg _ _ _ h1]

/-- `pyStrip` absorbs a leading whitespace character. -/
theorem pyStrip_cons_ws (c : Char) (l : List Char) (hc : pyWS c = true) :
    pyStrip (c :: l) = pyStrip l := by
  unfold pyStrip
  rw [List.dropWhile_cons, if_pos (by simp [hc])]

/-- A token (`pyStrip` of a split field) that is empty-or-`#`-headed stays so
when the field is cut short. -/
theorem goodTok_of_take_append (x y : List Char)
    (h : pyStrip (x ++ y) = [] ∨ (pyStrip (x ++ y)).head? = some '#') :
    pyStrip x = [] ∨ (pyStrip x).head? = some '#' := by
  cases hd : x.dropWhile pyWS with
  | nil =>
    left
    unfold pyStrip
    rw [hd]
    rfl
  | cons h0 t0 =>
    have hph0 : pyWS h0 = false := dropWhile_eq_cons_head pyWS x h0 t0 hd
    have hxy : (x ++ y).dropWhile pyWS = h0 :: (t0 ++ y) := by
      rw [List.dropWhile_append, hd]
      simp
    have hstrip_xy : pyStrip (x ++ y) = h0 :: rstripP pyWS (t0 ++ y) := by
      unfold pyStrip
      rw [hxy, rstripP_cons_of_neg _ _ _ hph0]
    have hstrip_x : pyStrip x = h0 :: rstripP pyWS t0 := by
      unfold pyStrip
      rw [hd, rstripP_cons_of_neg _ _ _ hph0]
    rcases h with h | h
    · rw [hstrip_xy] at h; exact absurd h (List.cons_ne_nil _ _)
    · rw [hstrip_xy] at h
      simp only [List.head?_cons, Option.some.injEq] at h
      right
      rw [hstrip_x, h]
      rfl

/-- Every field produced by `splitChar` is free of the separator. -/
theorem not_mem_of_mem_splitChar (c : Char) (l : List Char) (f : List Char)
    (hf : f ∈ splitChar c l) : c ∉ f := by
  induction l generalizing f with
  | nil =>
    simp only [splitChar, List.mem_singleton] at hf
    subst hf; simp
  | cons x xs ih =>
    by_cases hx : x = c
    · subst hx
      rw [splitChar_cons_sep] at hf
      rcases List.mem_cons.mp hf with rfl | hf
      · simp
      · exact ih f hf
    · rw [splitChar_cons_ne c x xs hx] at hf
      rcases List.mem_cons.mp hf with rfl | hf
      · intro hmem
        rcases List.mem_cons.mp hmem with rfl | hmem
        · exact hx rfl
        · cases hh : splitChar c xs with
          | nil => exact absurd hh (splitChar_ne_nil c xs)
          | cons y ys =>
            have : (splitChar c xs).headI ∈ splitChar c xs := by
              rw [hh]; simp
            exact ih _ this (by simpa [hh] using hmem)
      · cases hh : splitChar c xs with
        | nil => exact absurd hh (splitChar_ne_nil c xs)
        | cons y ys =>
          have : f ∈ splitChar c xs := by
            rw [hh]; exact List.mem_cons_of_mem y (by simpa [hh] using hf)
          exact ih f this

theorem intercalate_cons_cons (sep a b : List Char) (l : List (List Char)) :
    List.intercalate sep (a :: b :: l) =
      a ++ sep ++ List.intercalate sep (b :: l) := by
  simp [List.intercalate, List.intersperse]

/-- Splitting the `", "`-join of comma-free pieces on `','` recovers the
pieces, each non-first piece carrying the separator's space. -/
theorem splitChar_intercalate_comma (ps : List (List Char)) (p0 : List Char)
    (hps : ∀ p ∈ p0 :: ps, ',' ∉ p) :
    splitChar ',' (List.intercalate (pyStr ", ") (p0 :: ps)) =
      p0 :: ps.map (fun p => ' ' :: p) := by
  induction ps generalizing p0 with
  | nil =>
    have hpi : List.intercalate (pyStr ", ") [p0] = p0 := by
      simp [List.intercalate, List.intersperse]
    rw [hpi, splitChar_of_not_mem ',' p0 (hps p0 (List.mem_cons_self _ _))]
    rfl
  | cons q rest ih =>
    rw [intercalate_cons_cons]
    have hp0 : ',' ∉ p0 := hps p0 (List.mem_cons_self _ _)
    have hrest : ∀ p ∈ q :: rest, ',' ∉ p :=
      fun p hp => hps p (List.mem_cons_of_mem p0 hp)
    have hih := ih q hrest
    have hsep : p0 ++ pyStr ", " ++ List.intercalate (pyStr ", ") (q :: rest) =
        p0 ++ (',' :: ' ' :: List.intercalate (pyStr ", ") (q :: rest)) := by
      simp [pyStr]
    rw [hsep, splitChar_append_of_not_mem ',' p0 _ hp0, splitChar_cons_sep,
      splitChar_cons_ne ',' ' ' _ (by decide), hih]
    simp

/-- Tokens of a string all empty or `#`-headed, the shape preserved by the
hashtag truncation rule. -/
def goodSplit (s : List Char) : Prop :=
  ∀ t ∈ (splitChar ',' s).map pyStrip, t = [] ∨ t.head? = some '#'

theorem goodSplit_take (s : List Char) (n : Nat) (h : goodSplit s) :
    goodSplit (s.take n) := by
  intro t ht
  obtain ⟨pre, x, y, rest, h1, h2⟩ := splitChar_take ',' s n
  rw [h2] at ht
  rcases List.mem_map.mp ht with ⟨f, hf, rfl⟩
  rcases List.mem_append.mp hf with hf | hf
  · exact h (pyStrip f) (List.mem_map.mpr ⟨f, by rw [h1]; simp [hf], rfl⟩)
  · have hfx : f = x := List.mem_singleton.mp hf
    subst hfx
    exact goodTok_of_take_append f y
      (h (pyStrip (f ++ y)) (List.mem_map.mpr ⟨f ++ y, by rw [h1]; simp, rfl⟩))

theorem foldl_max_le_init (l : List Nat) (a : Nat) : a ≤ l.foldl max a := by
  induction l generalizing a with
  | nil => exact le_refl a
  | cons b t ih => exact le_trans (le_max_left a b) (ih (max a b))

theorem le_foldl_max (l : List Nat) (x : Nat) (hx : x ∈ l) (a : Nat) :
    x ≤ l.foldl max a := by
  induction l generalizing a with
  | nil => exact absurd hx (List.not_mem_nil x)
  | cons b t ih =>
    rcases List.mem_cons.mp hx with rfl | hx
    · exact le_trans (le_max_right a x) (foldl_max_le_init t (max a x))
    · exact ih hx (max a b)

/-- The summary upsert adds the record's tokens to exactly the window sums
containing its day. -/
theorem update_usage_summary_tokens (W : String → Bool) (ss : List SummaryRec)
    (d : String) (t : Int) (c : Rat) :
    (((update_usage_summary ss d t c).filter (fun s => W s.date)).map
        SummaryRec.total_tokens).sum =
      ((ss.filter (fun s => W s.date)).map SummaryRec.total_tokens).sum +
        (if W d then t else 0) := by
  induction ss with
  | nil =>
    simp only [update_usage_summary, List.filter_nil, List.map_nil, List.sum_nil]
    by_cases hw : W d
    · simp [List.filter, hw]
    · simp [List.filter, hw]
  | cons s rest ih =>
    by_cases hsd : s.date = d
    · simp only [update_usage_summary, if_pos hsd]
      by_cases hw : W d
      · have hws : W s.date = true := by rw [hsd]; exact hw
        simp only [List.filter_cons, hws, if_pos rfl]
        simp [hws, List.sum_cons, hw]
        ring
      · have hws : W s.date = false := by
          rw [hsd]
          exact Bool.not_eq_true _ ▸ (by simpa using hw)
        simp [List.filter_cons, hws, hw]
    · simp only [update_usage_summary, if_neg hsd]
      by_cases hws : W s.date
      · simp [List.filter_cons, hws, ih]
        ring
      · simp [List.filter_cons, hws, ih]

/-- The summary upsert increments the total request count by exactly one. -/
theorem update_usage_summary_requests (ss : List SummaryRec) (d : String)
    (t : Int) (c : Rat) :
    ((update_usage_summary ss d t c).map SummaryRec.request_count).sum =
      (ss.map SummaryRec.request_count).sum + 1 := by
  induction ss with
  | nil => simp [update_usage_summary]
  | cons s rest ih =>
    by_cases hsd : s.date = d
    · simp only [update_usage_summary, if_pos hsd, List.map_cons, List.sum_cons]
      omega
    · simp only [update_usage_summary, if_neg hsd, List.map_cons, List.sum_cons, ih]
      omega

/-- The summary upsert touches exactly one row: it either updates the row for
the day in place or appends a fresh one. -/
theorem update_usage_summary_length (ss : List SummaryRec) (d : String)
    (t : Int) (c : Rat) :
    (update_usage_summary ss d t c).length = ss.length ∨
      (update_usage_summary ss d t c).length = ss.length + 1 := by
  induction ss with
  | nil => right; simp [update_usage_summary]
  | cons s rest ih =>
    by_cases hsd : s.date = d
    · left; simp [update_usage_summary, if_pos hsd]
    · rcases ih with h | h
      · left; simp [update_usage_summary, if_neg hsd, h]
      · right; simp [update_usage_summary, if_neg hsd, h]

/-- One successful `save_token_usage` moves both sides of the windowed ledger
equation by the same amount. -/
theorem save_token_usage_balanced (W : String → Bool) (st : DBState)
    (rec : TokenUsageRec) (h : summaryTokensIn W st = usageTokensIn W st) :
    summaryTokensIn W (save_token_usage st rec) =
      usageTokensIn W (save_token_usage st rec) := by
  unfold summaryTokensIn usageTokensIn save_token_usage at *
  simp only [List.filter_append, List.map_append, List.sum_append]
  rw [update_usage_summary_tokens, h]
  by_cases hw : W rec.date
  · simp [List.filter, hw]
  · simp [List.filter, hw]

theorem runSaves_balanced (W : String → Bool) (recs : List TokenUsageRec)
    (st : DBState) (h : summaryTokensIn W st = usageTokensIn W st) :
    summaryTokensIn W (runSaves recs st) = usageTokensIn W (runSaves recs st) := by
  induction recs generalizing st with
  | nil => exact h
  | cons r rest ih =>
    exact ih (save_token_usage st r) (save_token_usage_balanced W st r h)

theorem truncate500_length (s : List Char) : (truncate500 s).length ≤ 500 := by
  unfold truncate500
  by_cases h : 500 < s.length
  · rw [if_pos h]
    by_cases hc : 400 < pyRFind ',' (s.take 500)
    · simp only [if_pos hc, List.length_take]
      omega
    · simp only [if_neg hc, List.length_take]
      omega
  · rw [if_neg h]
    omega

theorem truncate500_goodSplit (s : List Char) (h : goodSplit s) :
    goodSplit (truncate500 s) := by
  unfold truncate500
  by_cases h5 : 500 < s.length
  · rw [if_pos h5]
    by_cases hc : 400 < pyRFind ',' (s.take 500)
    · rw [if_pos hc]
      exact goodSplit_take _ _ (goodSplit_take _ _ h)
    · rw [if_neg hc]
      exact goodSplit_take _ _ h
  · rw [if_neg h5]
    exact h

theorem comma_not_mem_hashtagKeywordList (keywords k : List Char)
    (hk : k ∈ hashtagKeywordList keywords) : ',' ∉ k := by
  intro hmem
  unfold hashtagKeywordList at hk
  rcases List.mem_map.mp hk with ⟨u, hu, rfl⟩
  rcases List.mem_filterMap.mp hu with ⟨field, hfield, hf⟩
  by_cases hs : pyStrip field = []
  · rw [if_pos hs] at hf
    exact Option.noConfusion hf
  · rw [if_neg hs] at hf
    have hue : u = (pyStrip field).filter (· ≠ ' ') := (Option.some.injEq _ _).mp hf.symm
    have h1 : ',' ∈ u := mem_of_mem_rstripP _ u ',' hmem
    rw [hue] at h1
    have h2 : ',' ∈ pyStrip field := (List.mem_filter.mp h1).1
    have h3 : ',' ∈ field := mem_of_mem_pyStrip field ',' h2
    exact not_mem_of_mem_splitChar ',' keywords field hfield h3

theorem hashtagJoin_goodSplit (keywords : List Char) :
    goodSplit (hashtagJoin keywords) := by
  unfold hashtagJoin
  cases hkl : hashtagKeywordList keywords with
  | nil =>
    intro t ht
    simp only [hkl, List.map_nil] at ht
    have : List.intercalate (pyStr ", ") ([] : List (List Char)) = [] := by
      simp [List.intercalate]
    rw [this] at ht
    simp only [splitChar, List.map_cons, List.map_nil] at ht
    rcases List.mem_singleton.mp ht with rfl
    left
    rfl
  | cons k0 krest =>
    intro t ht
    have hcf : ∀ p ∈ ('#' :: k0) :: krest.map (fun kw => '#' :: kw), ',' ∉ p := by
      intro p hp
      rcases List.mem_cons.mp hp with rfl | hp
      · intro hc
        rcases List.mem_cons.mp hc with hc | hc
        · exact absurd hc (by decide)
        · exact comma_not_mem_hashtagKeywordList keywords k0
            (by rw [hkl]; exact List.mem_cons_self _ _) hc
      · rcases List.mem_map.mp hp with ⟨kw, hkw, rfl⟩
        intro hc
        rcases List.mem_cons.mp hc with hc | hc
        · exact absurd hc (by decide)
        · exact comma_not_mem_hashtagKeywordList keywords kw
            (by rw [hkl]; exact List.mem_cons_of_mem k0 hkw) hc
    rw [List.map_cons, splitChar_intercalate_comma _ _ hcf] at ht
    rcases List.mem_map.mp ht with ⟨f, hf, rfl⟩
    rcases List.mem_cons.mp hf with rfl | hf
    · right
      rw [pyStrip_hash_cons]
      rfl
    · rcases List.mem_map.mp hf with ⟨q, hq, rfl⟩
      rcases List.mem_map.mp hq with ⟨kw, hkw, rfl⟩
      right
      rw [pyStrip_cons_ws ' ' _ (by decide), pyStrip_hash_cons]
      rfl

/-- `parse_timestamp` returns `0` whenever any of its `int(...)` conversions
fails (the bare `except: return 0`). -/
theorem parse_timestamp_of_not_parses (s : List Char)
    (h : timestampParses s = false) : parse_timestamp s = 0 := by
  unfold timestampParses at h
  unfold parse_timestamp
  cases hsp : splitChar ':' s with
  | nil => rfl
  | cons a rest =>
    cases rest with
    | nil =>
      rw [hsp] at h
      simp only at h
      cases hpa : pyIntParse a with
      | none => simp [hpa]
      | some v => rw [hpa] at h; simp at h
    | cons b rest2 =>
      cases rest2 with
      | nil =>
        rw [hsp] at h
        simp only at h
        cases hpa : pyIntParse a with
        | none => simp [hpa]
        | some v =>
          cases hpb : pyIntParse b with
          | none => simp [hpa, hpb]
          | some w => rw [hpa, hpb] at h; simp at h
      | cons c3 rest3 =>
        cases rest3 with
        | nil =>
          rw [hsp] at h
          simp only at h
          cases hpa : pyIntParse a with
          | none => simp [hpa]
          | some v =>
            cases hpb : pyIntParse b with
            | none => simp [hpa, hpb]
            | some w =>
              cases hpc : pyIntParse c3 with
              | none => simp [hpa, hpb, hpc]
              | some u => rw [hpa, hpb, hpc] at h; simp at h
        | cons d rest4 =>
          rw [hsp] at h
          simp only at h
          cases hpa : pyIntParse a with
          | none => simp [hpa]
          | some v => rw [hpa] at h; simp at h

/-- `parse_list_response` returns exactly the target count whenever the
default item is non-empty. -/
theorem parse_list_response_length (response : List Char) (target : Nat)
    (d : List Char) (hd : d ≠ []) :
    (parse_list_response response target d).length = target := by
  unfold parse_list_response
  simp only [if_neg hd, List.length_take, List.length_append,
    List.length_replicate]
  omega

/-- Truncating an over-budget prompt yields exactly the character budget. -/
theorem truncate_prompt_length (p : List Char)
    (h : MAX_PROMPT_CHARS < p.length) :
    (truncate_prompt p).length = MAX_PROMPT_CHARS := by
  unfold truncate_prompt
  rw [if_neg (by omega)]
  have hn : TRUNCATION_NOTE.length = 93 := by decide
  simp only [List.length_append, List.length_take]
  rw [hn] at *
  simp only [MAX_PROMPT_CHARS] at *
  omega

/-! ## Sanity checks of the embedding on concrete inputs -/

example : pyStrip (pyStr "  a b  ") = pyStr "a b" := by decide
example : splitChar ',' (pyStr "a,b,,c") = [pyStr "a", pyStr "b", [], pyStr "c"] := by decide
example : splitChar ',' [] = [[]] := by decide
example : containsSub (pyStr " - ") (pyStr "00:12 - Intro") = true := by decide
example : takeBeforeSub (pyStr " - ") (pyStr "00:12 - Intro") = pyStr "00:12" := by decide
example : pyIntParse (pyStr " 42 ") = some 42 := by decide
example : pyIntParse (pyStr "-7") = some (-7) := by decide
example : pyIntParse (pyStr "1_0") = some 10 := by decide
example : pyIntParse (pyStr "1__0") = none := by decide
example : pyIntParse (pyStr "12a") = none := by decide
example : pyRFind ',' (pyStr "a,b,c") = 3 := by decide
example : pyRFind ',' (pyStr "abc") = -1 := by decide
example : pySplit1Last '.' (pyStr "1. x.y") = pyStr " x.y" := by decide
example : rstripP (· = '.') (pyStr "startup...") = pyStr "startup" := by decide
example : parse_timestamp (pyStr "01:02:03") = 3723 := by decide
example : parse_timestamp (pyStr "02:03") = 123 := by decide
example : parse_timestamp (pyStr "45") = 45 := by decide
example : parse_timestamp (pyStr "abc") = 0 := by decide
example : parse_timestamp (pyStr "1:2:3:4") = 1 := by decide
example : parse_timestamps_response (pyStr "no separators here") =
    [pyStr "00:00:00 - Introduction"] := by decide
example : parse_timestamps_response (pyStr "00:10 - B\n00:05 - A") =
    [pyStr "00:05 - A", pyStr "00:10 - B"] := by decide
example : parse_list_response (pyStr "1. Great insight\n2. Another one\n") 3
    (pyStr "X") = [pyStr "Great insight", pyStr "Another one", pyStr "X"] := by decide
example : parse_list_response (pyStr "- bullet\n• dot") 2 [] =
    [pyStr "bullet", pyStr "dot"] := by decide
example : generate_hashtags_from_keywords (pyStr "Finance, Dubai , startup...") =
    pyStr "#Finance, #Dubai, #startup" := by decide
example : pyFormat (pyStr "Hello {name}!") [(pyStr "name", pyStr "World")] =
    .ok (pyStr "Hello World!") := by rfl
example : pyFormat (pyStr "Hello {name}!") [] =
    .error (.keyErr (pyStr "name")) := by rfl
example : render_db_prompt (pyStr "Hello {name}!") [] =
    .ok (pyStr "Hello {name}!") := by rfl
example : truncate_prompt (pyStr "short") = pyStr "short" := by decide
example :
    (update_usage_summary [⟨"2026-10-12", 5, 1, 1⟩] "2026-10-12" 7 2).map
      (fun s => (s.date, s.total_tokens, s.request_count)) =
    [("2026-10-12", 12, 2)] := by decide
example :
    (update_usage_summary [⟨"2026-10-11", 5, 1, 1⟩] "2026-10-12" 7 2).map
      (fun s => (s.date, s.total_tokens, s.request_count)) =
    [("2026-10-11", 5, 1), ("2026-10-12", 7, 1)] := by decide
example :
    (create_prompt_template [] "blog_post" (pyStr "b1")).1.version = 1 := by decide

/-! ## Claim theorems -/

/-- C1 (counterexample): the completion client does **not** truncate-and-retry
on every context-length error.  With a 5-character prompt and a provider whose
primary model raises a context-length error, the client makes exactly one call
to the primary model and then advances to the first fallback — the second
provider call goes to `"gpt-5-nano"`, not back to the primary — and the
returned `model` is the fallback. -/
theorem completion_client_no_retry_counterexample :
    oracleC "gpt-5-mini" (pyStr "hello") = .err (pyStr "context_length_exceeded") ∧
    is_context_length_error (pyStr "context_length_exceeded") = true ∧
    (generate_text_with_tokens oracleC "gpt-5-mini" (pyStr "hello")).2 =
      [("gpt-5-mini", pyStr "hello"), ("gpt-5-nano", pyStr "hello")] ∧
    (generate_text_with_tokens oracleC "gpt-5-mini" (pyStr "hello")).1 =
      .ok (mkSuccess "gpt-5-nano" ⟨pyStr "fallback reply", 3, 2, 5⟩) :=
  ⟨by rfl, by decide, by rfl, by rfl⟩

/-- C1 (amended): the completion client tries the configured primary model
first and then the fixed fallback sequence; on a context-length error **when
the prompt exceeds the 50 000-character budget** it truncates the prompt
(appending the visible truncation note) and retries exactly once against the
same candidate.  In particular, when the primary model raises a
context-length error once on an over-budget prompt and the truncate-retry
succeeds, the run makes exactly the two calls `(primary, p)` and
`(primary, truncated p)` and the returned `model` field is the primary model
id, not a fallback. -/
theorem completion_client_truncate_retry (o : Oracle) (primary : String)
    (p msg : List Char) (r : ApiResponse)
    (hlen : MAX_PROMPT_CHARS < p.length)
    (h1 : o primary p = .err msg)
    (hctx : is_context_length_error msg = true)
    (h2 : o primary (truncate_prompt p) = .ok r) :
    generate_text_with_tokens o primary p =
      (.ok (mkSuccess primary r), [(primary, p), (primary, truncate_prompt p)]) := by
  have hcond : (is_context_length_error msg &&
      decide (MAX_PROMPT_CHARS < p.length)) = true := by
    rw [hctx, decide_eq_true hlen, Bool.and_self]
  have hatt : attemptCandidate o primary p =
      (.ok (mkSuccess primary r), [(primary, p), (primary, truncate_prompt p)]) := by
    simp only [attemptCandidate, h1, hcond, if_true, h2]
  unfold generate_text_with_tokens models_to_try genLoop
  rw [hatt]

theorem completion_client_truncate_retry_witness :
    generate_text_with_tokens oracleW "gpt-5-mini" promptW =
      (.ok (mkSuccess "gpt-5-mini" ⟨pyStr "ok", 3, 2, 5⟩),
       [("gpt-5-mini", promptW), ("gpt-5-mini", truncate_prompt promptW)]) := by
  have hplen : promptW.length = 50001 := by
    rw [promptW, List.length_replicate]
  have hlen : MAX_PROMPT_CHARS < promptW.length := by
    rw [hplen]
    decide
  apply completion_client_truncate_retry oracleW "gpt-5-mini" promptW
    (pyStr "context_length_exceeded") ⟨pyStr "ok", 3, 2, 5⟩ hlen
  · show oracleW "gpt-5-mini" promptW = .err (pyStr "context_length_exceeded")
    unfold oracleW
    have hno : ¬ (promptW.length ≤ MAX_PROMPT_CHARS) := by
      rw [hplen]
      decide
    rw [if_neg hno]
  · decide
  · show oracleW "gpt-5-mini" (truncate_prompt promptW) = .ok ⟨pyStr "ok", 3, 2, 5⟩
    unfold oracleW
    have hyes : (truncate_prompt promptW).length ≤ MAX_PROMPT_CHARS := by
      rw [truncate_prompt_length promptW hlen]
    rw [if_pos hyes]

/-- C2 (counterexample): in the database-integrated generation path, rendering
a template that references a placeholder not supplied in the fields does
**not** fail — the `KeyError` is caught and the raw template is used as the
prompt, with the placeholder `{name}` left unsubstituted in the output. -/
theorem render_db_prompt_counterexample :
    render_db_prompt (pyStr "Hello {name}") [] = .ok (pyStr "Hello {name}") ∧
    containsSub (pyStr "{name}") (pyStr "Hello {name}") = true :=
  ⟨by rfl, by decide⟩

/-- C2 (amended): when a template references a placeholder not supplied in the
fields, the standalone renderer `PromptsService.format_prompt` fails with a
missing-field error, but the database generation path
(`_generate_content_with_db`) catches the `KeyError` and proceeds with the
raw, unformatted template — placeholders are left unsubstituted rather than
raising. -/
theorem prompt_render_missing_field (template : List Char)
    (fields : List (List Char × List Char)) (name : List Char)
    (h : pyFormat template fields = .error (.keyErr name)) :
    format_prompt_render template fields = .error (.keyErr name) ∧
    render_db_prompt template fields = .ok template := by
  refine ⟨h, ?_⟩
  unfold render_db_prompt
  rw [h]

theorem prompt_render_missing_field_witness :
    format_prompt_render (pyStr "Hello {name}") [] =
      .error (.keyErr (pyStr "name")) ∧
    render_db_prompt (pyStr "Hello {name}") [] = .ok (pyStr "Hello {name}") :=
  prompt_render_missing_field (pyStr "Hello {name}") [] (pyStr "name") (by rfl)

/-- C3: the per-call `TokenUsage` record does **not** survive a failure of the
daily-summary upsert.  `save_token_usage` flushes the row and then runs
`_update_usage_summary` with no exception handling and before any commit, so
when the upsert fails the exception propagates and the durable state is
exactly the pre-call state — the `TokenUsage` row is lost with the rollback.
On the success path both the row and the summary are recorded. -/
theorem token_usage_lost_when_summary_upsert_fails (st : DBState)
    (rec : TokenUsageRec) :
    durableAfter st (save_token_usage_txn st rec true) = st ∧
    save_token_usage_txn st rec false = .ok (save_token_usage st rec) :=
  ⟨rfl, rfl⟩

/-- C4: every `TokenUsage` write increments exactly one `DailyUsageSummary`
row — the total request count rises by exactly one, the number of summary
rows rises by zero (updated in place) or one (created), and every window sum
of summary tokens rises by the record's tokens exactly when the window
contains its day — hence over any run of writes from the empty database and
for every time window `W`, the summed summary tokens equal the summed
per-call `TokenUsage` tokens. -/
theorem token_usage_ledger_consistency :
    (∀ st rec,
      summaryRequestCount (save_token_usage st rec) = summaryRequestCount st + 1 ∧
      ((save_token_usage st rec).summaries.length = st.summaries.length ∨
       (save_token_usage st rec).summaries.length = st.summaries.length + 1) ∧
      ∀ W, summaryTokensIn W (save_token_usage st rec) =
        summaryTokensIn W st + (if W rec.date then rec.total_tokens else 0)) ∧
    ∀ recs W, summaryTokensIn W (runSaves recs emptyDB) =
      usageTokensIn W (runSaves recs emptyDB) := by
  constructor
  · intro st rec
    refine ⟨update_usage_summary_requests _ _ _ _,
      update_usage_summary_length _ _ _ _, ?_⟩
    intro W
    unfold summaryTokensIn save_token_usage
    exact update_usage_summary_tokens W _ _ _ _
  · intro recs W
    exact runSaves_balanced W recs emptyDB
      (by simp [summaryTokensIn, usageTokensIn, emptyDB])

/-- C5: for every raw model output and guest data, the clickbait-titles field
contains exactly 20 strings, each at most 100 characters long — the parser
pads with the (always non-empty) default title, truncates to 20, and clamps
every title with `t[:100]`. -/
theorem clickbait_titles_spec (response guest_name guest_company : List Char) :
    (clickbait_titles_db response guest_name guest_company).length = 20 ∧
    ∀ t ∈ clickbait_titles_db response guest_name guest_company,
      t.length ≤ 100 := by
  have hd : pyStr "Insights from " ++ guest_name ++ pyStr " at " ++ guest_company ≠ [] := by
    intro h
    have := congrArg List.length h
    simp [pyStr] at this
  constructor
  · unfold clickbait_titles_db
    rw [List.length_map]
    exact parse_list_response_length _ _ _ hd
  · intro t ht
    unfold clickbait_titles_db at ht
    rcases List.mem_map.mp ht with ⟨u, hu, rfl⟩
    exact List.length_take_le 100 u

theorem clickbait_titles_spec_witness :
    (clickbait_titles_db (pyStr "1. Great insight") (pyStr "Jane")
      (pyStr "Acme")).length = 20 ∧
    (pyStr "Great insight").length ≤ 100 :=
  ⟨(clickbait_titles_spec (pyStr "1. Great insight") (pyStr "Jane")
      (pyStr "Acme")).1,
   (clickbait_titles_spec (pyStr "1. Great insight") (pyStr "Jane")
      (pyStr "Acme")).2 (pyStr "Great insight") (by decide)⟩

/-- C6: for every raw model output, the timestamp-list parser returns a
non-empty list whose parsed leading timestamps are non-decreasing; it keeps
exactly the stripped lines containing a `" - "` separator, and substitutes
the single default entry `"00:00:00 - Introduction"` when no line
qualifies.  The parser is a total function — it never fails. -/
theorem parse_timestamps_response_spec (response : List Char) :
    parse_timestamps_response response ≠ [] ∧
    (parse_timestamps_response response).Pairwise
      (fun a b => tsKey a ≤ tsKey b) ∧
    (keptTimestampLines response = [] →
      parse_timestamps_response response = [pyStr "00:00:00 - Introduction"]) ∧
    (keptTimestampLines response ≠ [] →
      ∀ l, l ∈ parse_timestamps_response response ↔
        l ∈ keptTimestampLines response) := by
  unfold parse_timestamps_response
  by_cases h : sortByKey tsKey (keptTimestampLines response) = []
  · rw [if_pos h]
    refine ⟨by simp, by simp, fun _ => rfl, ?_⟩
    intro hk
    exact absurd ((sortByKey_eq_nil_iff tsKey _).mp h) hk
  · rw [if_neg h]
    refine ⟨h, pairwise_sortByKey tsKey _, ?_, ?_⟩
    · intro hk
      exact absurd ((sortByKey_eq_nil_iff tsKey _).mpr hk) h
    · intro _ l
      exact mem_sortByKey tsKey l _

theorem parse_timestamps_response_spec_witness :
    parse_timestamps_response (pyStr "no separators here") =
      [pyStr "00:00:00 - Introduction"] :=
  (parse_timestamps_response_spec (pyStr "no separators here")).2.2.1 (by decide)

/-- C7: hashtag derivation maps `"Finance, Dubai , startup..."` to exactly
`"#Finance, #Dubai, #startup"`; for every keywords string the output is at
most 500 characters; and every non-empty comma-separated token of the output
starts with `'#'`. -/
theorem generate_hashtags_spec :
    generate_hashtags_from_keywords (pyStr "Finance, Dubai , startup...") =
      pyStr "#Finance, #Dubai, #startup" ∧
    (∀ keywords, (generate_hashtags_from_keywords keywords).length ≤ 500) ∧
    (∀ keywords t,
      t ∈ hashtagTokens (generate_hashtags_from_keywords keywords) →
      t.head? = some '#') := by
  refine ⟨by decide, ?_, ?_⟩
  · intro kw
    unfold generate_hashtags_from_keywords
    by_cases h0 : kw = []
    · rw [if_pos h0]
      simp
    · rw [if_neg h0]
      exact truncate500_length _
  · intro kw t ht
    unfold generate_hashtags_from_keywords at ht
    by_cases h0 : kw = []
    · rw [if_pos h0] at ht
      have : hashtagTokens [] = [] := by decide
      rw [this] at ht
      exact absurd ht (List.not_mem_nil t)
    · rw [if_neg h0] at ht
      have hgood : goodSplit (truncate500 (hashtagJoin kw)) :=
        truncate500_goodSplit _ (hashtagJoin_goodSplit kw)
      unfold hashtagTokens at ht
      have hmem := List.mem_filter.mp ht
      rcases hgood t hmem.1 with he | hh
      · exact absurd he (by simpa using hmem.2)
      · exact hh

theorem generate_hashtags_spec_witness :
    pyStr "#Finance" ∈
      hashtagTokens (generate_hashtags_from_keywords
        (pyStr "Finance, Dubai , startup...")) ∧
    (pyStr "#Finance").head? = some '#' :=
  ⟨by decide, generate_hashtags_spec.2.2 (pyStr "Finance, Dubai , startup...")
    (pyStr "#Finance") (by decide)⟩

/-- C8: from an empty store, `create(name, body1)` followed by
`replace(name, body2)` leaves the active template for `name` with body
`body2` and version 2, and exactly one stored row for `name` is active;
moreover `create` always assigns `1 + max existing version for the name`
computed over **all** rows regardless of active flags, so the new version is
strictly greater than every stored version for that name — version numbers
are never reused. -/
theorem prompt_template_versioning :
    (∀ (name : String) (b1 b2 : List Char),
      ∃ r2 s2,
        update_prompt_template (create_prompt_template [] name b1).2 name b2 =
          .ok (r2, s2) ∧
        get_prompt_template s2 name = some r2 ∧
        r2.template = b2 ∧ r2.version = 2 ∧
        (s2.filter (fun r => r.name = name && r.is_active)).length = 1) ∧
    (∀ (store : TemplateStore) (name : String) (t : List Char),
      (create_prompt_template store name t).1.version =
        maxVersion store name + 1) ∧
    (∀ (store : TemplateStore) (name : String) (t : List Char)
      (r : TemplateRow), r ∈ store → r.name = name →
      r.version < (create_prompt_template store name t).1.version) := by
  refine ⟨?_, fun _ _ _ => rfl, ?_⟩
  · intro name b1 b2
    refine ⟨⟨1, name, b2, 2, true⟩,
      [⟨0, name, b1, 1, false⟩, ⟨1, name, b2, 2, true⟩], ?_, ?_, rfl, rfl, ?_⟩
    · simp [create_prompt_template, update_prompt_template, maxVersion,
        List.filter]
    · simp [get_prompt_template, List.filter]
    · simp [List.filter]
  · intro store name t r hr hname
    have hver : r.version ∈ (store.filter (fun q => q.name = name)).map
        TemplateRow.version :=
      List.mem_map.mpr ⟨r, List.mem_filter.mpr ⟨hr, by simp [hname]⟩, rfl⟩
    have hle : r.version ≤ maxVersion store name :=
      le_foldl_max _ _ hver 0
    have heq : (create_prompt_template store name t).1.version =
        maxVersion store name + 1 := rfl
    omega

theorem prompt_template_versioning_witness :
    (⟨0, "blog_post", pyStr "old", 3, false⟩ : TemplateRow) ∈
      [(⟨0, "blog_post", pyStr "old", 3, false⟩ : TemplateRow)] ∧
    (⟨0, "blog_post", pyStr "old", 3, false⟩ : TemplateRow).version <
      (create_prompt_template [⟨0, "blog_post", pyStr "old", 3, false⟩]
        "blog_post" (pyStr "new")).1.version :=
  ⟨List.mem_singleton.mpr rfl,
    prompt_template_versioning.2.2 [⟨0, "blog_post", pyStr "old", 3, false⟩]
      "blog_post" (pyStr "new") ⟨0, "blog_post", pyStr "old", 3, false⟩
      (List.mem_singleton.mpr rfl) rfl⟩

/-- C9: the bounded-list parser returns exactly the target count whenever the
default filler is non-empty; and parsing `"1. Great insight\n2. Another
one\n"` with target count 20 and default `"X"` yields `"Great insight"`,
`"Another one"`, followed by 18 copies of `"X"`. -/
theorem parse_list_response_spec :
    (∀ response target d, d ≠ [] →
      (parse_list_response response target d).length = target) ∧
    parse_list_response (pyStr "1. Great insight\n2. Another one\n") 20
      (pyStr "X") =
      pyStr "Great insight" :: pyStr "Another one" ::
        List.replicate 18 (pyStr "X") :=
  ⟨parse_list_response_length, by decide⟩

theorem parse_list_response_spec_witness :
    (pyStr "X" ≠ []) ∧
    (parse_list_response (pyStr "1. Great insight\n2. Another one\n") 20
      (pyStr "X")).length = 20 :=
  ⟨by decide, parse_list_response_spec.1 _ 20 _ (by decide)⟩

/-- C10: timestamp parsing is total — whenever the text does not parse as
`HH:MM:SS`, `MM:SS` or a bare integer, `parse_timestamp` returns `0`
instead of failing; consequently a kept chapter line whose text before the
first `" - "` is unparseable is retained in the parsed chapter list with
sort key `0`, and every line placed before it has sort key at most `0`. -/
theorem parse_timestamp_total_spec :
    (∀ s, timestampParses s = false → parse_timestamp s = 0) ∧
    (∀ response l, l ∈ keptTimestampLines response →
      timestampParses (takeBeforeSub (pyStr " - ") l) = false →
      l ∈ parse_timestamps_response response ∧ tsKey l = 0 ∧
      ∀ pre post, parse_timestamps_response response = pre ++ l :: post →
        ∀ x ∈ pre, tsKey x ≤ 0) := by
  refine ⟨parse_timestamp_of_not_parses, ?_⟩
  intro response l hl hparse
  have hkey : tsKey l = 0 := by
    unfold tsKey
    exact parse_timestamp_of_not_parses _ hparse
  have hne : keptTimestampLines response ≠ [] := by
    intro h
    rw [h] at hl
    exact absurd hl (List.not_mem_nil l)
  have hsne : sortByKey tsKey (keptTimestampLines response) ≠ [] :=
    fun h => hne ((sortByKey_eq_nil_iff _ _).mp h)
  have hout : parse_timestamps_response response =
      sortByKey tsKey (keptTimestampLines response) := by
    unfold parse_timestamps_response
    rw [if_neg hsne]
  refine ⟨?_, hkey, ?_⟩
  · rw [hout]
    exact (mem_sortByKey tsKey l _).mpr hl
  · intro pre post hdecomp x hx
    have hsorted := pairwise_sortByKey tsKey (keptTimestampLines response)
    rw [← hout, hdecomp] at hsorted
    have hle := (List.pairwise_append.mp hsorted).2.2 x hx l
      (List.mem_cons_self _ _)
    rw [hkey] at hle
    exact hle

theorem parse_timestamp_total_spec_witness :
    pyStr "abc - T" ∈ parse_timestamps_response (pyStr "abc - T\n5 - B") ∧
    tsKey (pyStr "abc - T") = 0 :=
  ⟨(parse_timestamp_total_spec.2 (pyStr "abc - T\n5 - B") (pyStr "abc - T")
      (by decide) (by decide)).1,
   (parse_timestamp_total_spec.2 (pyStr "abc - T\n5 - B") (pyStr "abc - T")
      (by decide) (by decide)).2.1⟩
